import Mathlib

/-!
# Verification of the gen-dylib import-library generator

Shallow embedding of `src/lib.rs` (crate `gen-dylib`): a generator of
Windows-style short import libraries (MS COFF archives).  Byte buffers are
modelled as `List Nat` (each element a byte value), Rust strings as their
byte lists, `io::Result` / panics as `Option`, and the `IndexMap` symbol
index as an insertion-ordered association list with overwrite-in-place
semantics.  Machine integer casts (`as u16`, `as u32`) are modelled by the
truncation that the little-endian / big-endian byte encoders perform.
-/

set_option maxHeartbeats 1000000

set_option maxRecDepth 8192

namespace GenDylib

/-- Byte strings / buffers: lists of byte values. -/
abbrev Bytes := List Nat

/-!
String literals from the source are modelled as their ASCII byte lists
(plain `Nat` lists, to keep kernel reduction cheap); each constant's doc
comment gives the string it spells.
-/

/-- Bytes of `".dll"`. -/
def dotDllBytes : Bytes := [46, 100, 108, 108]

/-- Bytes of `"__imp_"`. -/
def impBytes : Bytes := [95, 95, 105, 109, 112, 95]

/-- Bytes of `"__IMPORT_DESCRIPTOR_"`. -/
def importDescBytes : Bytes :=
  [95, 95, 73, 77, 80, 79, 82, 84, 95, 68, 69, 83, 67, 82, 73, 80, 84, 79, 82, 95]

/-- Bytes of `"__NULL_IMPORT_DESCRIPTOR"`. -/
def nullImportDescBytes : Bytes :=
  [95, 95, 78, 85, 76, 76, 95, 73, 77, 80, 79, 82, 84, 95, 68, 69, 83, 67, 82, 73, 80, 84, 79, 82]

/-- Bytes of `"_NULL_THUNK_DATA"`. -/
def nullThunkBytes : Bytes :=
  [95, 78, 85, 76, 76, 95, 84, 72, 85, 78, 75, 95, 68, 65, 84, 65]

/-- Bytes of `".idata$2"`. -/
def idata2Bytes : Bytes := [46, 105, 100, 97, 116, 97, 36, 50]

/-- Bytes of `".idata$3"`. -/
def idata3Bytes : Bytes := [46, 105, 100, 97, 116, 97, 36, 51]

/-- Bytes of `".idata$4"`. -/
def idata4Bytes : Bytes := [46, 105, 100, 97, 116, 97, 36, 52]

/-- Bytes of `".idata$5"`. -/
def idata5Bytes : Bytes := [46, 105, 100, 97, 116, 97, 36, 53]

/-- Bytes of `".idata$6"`. -/
def idata6Bytes : Bytes := [46, 105, 100, 97, 116, 97, 36, 54]

/-- Bytes of `"-1"`. -/
def dashOneBytes : Bytes := [45, 49]

/-- Little-endian 2-byte encoding, as produced by `write_u16::<NativeEndian>`
on the x86-64 target (native order is little-endian there). -/
def u16 (n : Nat) : Bytes := [n % 256, n / 256 % 256]

/-- Little-endian 4-byte encoding (`write_u32::<NativeEndian>`). -/
def u32 (n : Nat) : Bytes :=
  [n % 256, n / 256 % 256, n / 65536 % 256, n / 16777216 % 256]

/-- Big-endian 4-byte encoding (`write_u32::<BigEndian>`). -/
def u32be (n : Nat) : Bytes :=
  [n / 16777216 % 256, n / 65536 % 256, n / 256 % 256, n % 256]

/-- Little-endian 8-byte encoding (`write_u64::<NativeEndian>`). -/
def u64 (n : Nat) : Bytes := u32 (n % 4294967296) ++ u32 (n / 4294967296)

/-- Decode 2 little-endian bytes. -/
def decU16 (b : Bytes) : Nat := b.getD 0 0 + 256 * b.getD 1 0

/-- Decode 4 little-endian bytes. -/
def decU32 (b : Bytes) : Nat :=
  b.getD 0 0 + 256 * b.getD 1 0 + 65536 * b.getD 2 0 + 16777216 * b.getD 3 0

/-- Decode 4 big-endian bytes. -/
def decU32be (b : Bytes) : Nat :=
  16777216 * b.getD 0 0 + 65536 * b.getD 1 0 + 256 * b.getD 2 0 + b.getD 3 0

/-- Constants from `src/lib.rs` (lines 59-66). -/
def IMAGE_SYM_CLASS_EXTERNAL : Nat := 0

def IMAGE_SYM_CLASS_SECTION : Nat := 0

def IMAGE_SYM_CLASS_STATIC : Nat := 0

def COFF_HEADER_LEN : Nat := 0x14

def COFF_SECTION_HEADER_LEN : Nat := 0x12

def ARCHIVE_HEADER_LEN : Nat := 0x3C

/-- Bytes of the archive signature `"!<arch>\n"`. -/
def ARCHIVE_SIG : Bytes := [33, 60, 97, 114, 99, 104, 62, 10]

/-- `fn arch() -> u16`: the machine-type code selected by the host build
configuration; we model the x86-64 branch (`IMAGE_FILE_MACHINE_AMD64`). -/
def arch : Nat := 0x8664

/-- `enum Import` (lines 6-10): by-name or by-ordinal import.  The `u16`
ordinal is carried as a `Nat`; theorems that decode the encoded field assume
it is in `u16` range, exactly as the Rust type guarantees. -/
inductive Import where
  | Name : Bytes → Import
  | Ordinal : Nat → Import
deriving DecidableEq, Repr

/-- `Import::name` (lines 13-18). -/
def Import.iname : Import → Option Bytes
  | .Name s => some s
  | .Ordinal _ => none

/-- `Import::ordinal` (lines 20-25). -/
def Import.iordinal : Import → Option Nat
  | .Name _ => none
  | .Ordinal o => some o

/-- `struct ImportLibBuilder` (lines 28-32). -/
structure ImportLibBuilder where
  name : Bytes
  imports : List (Bytes × Import)
deriving DecidableEq, Repr

/-- `ImportLibBuilder::new`. -/
def ImportLibBuilder.new (lib_name : Bytes) : ImportLibBuilder :=
  { name := lib_name, imports := [] }

/-- `ImportLibBuilder::import_name`. -/
def ImportLibBuilder.imp_name (b : ImportLibBuilder) (rust_name lib_name : Bytes) :
    ImportLibBuilder :=
  { b with imports := b.imports ++ [(rust_name, Import.Name lib_name)] }

/-- `ImportLibBuilder::import_ordinal`. -/
def ImportLibBuilder.imp_ordinal (b : ImportLibBuilder) (rust_name : Bytes) (o : Nat) :
    ImportLibBuilder :=
  { b with imports := b.imports ++ [(rust_name, Import.Ordinal o)] }

/-- `enum SymbolName` (lines 505-508). -/
inductive SymbolName where
  | Name : Bytes → SymbolName
  | Offset : Nat → SymbolName

/-- `fn write_symbol` (lines 510-528).  The Rust `&name.as_bytes()[0..8]`
slice panics when the literal name is shorter than 8 bytes (modelled `none`)
and silently keeps only the first 8 bytes when it is longer. -/
def write_symbol (name : SymbolName) (sec : Nat) (sym_ty : Nat) : Option Bytes :=
  match name with
  | .Name n =>
      if 8 ≤ n.length then
        some (n.take 8 ++ u32 0x00 ++ u16 sec ++ u16 0x00 ++ [sym_ty, 0x00])
      else
        none
  | .Offset o =>
      some (u32 0x00 ++ u32 o ++ u32 0x00 ++ u16 sec ++ u16 0x00 ++ [sym_ty, 0x00])

/-- The module-name stem: `archive_name` with a trailing `".dll"` stripped
(lines 262-266 and 424-428). -/
def moduleStem (archive_name : Bytes) : Bytes :=
  if dotDllBytes.isSuffixOf archive_name then
    archive_name.take (archive_name.length - 4)
  else
    archive_name

/-- Append the padding byte written whenever the buffer length is odd
(as in lines 123-125, 147-149, 154-156, 362-364, 416-418, 497-499). -/
def padBuf (buf : Bytes) : Bytes :=
  if buf.length % 2 ≠ 0 then buf ++ [0] else buf

/-- `data_len` of `build_import_descriptor` (lines 282-286): the computed
start of the symbol table (`COFF_HEADER_LEN + 2 section headers + 20 bytes
of .idata$2 + 3 relocations of 10 bytes + name + NUL`). -/
def descDataLen (archive_name : Bytes) : Nat :=
  COFF_HEADER_LEN + 2 * COFF_SECTION_HEADER_LEN + 20 + 3 * 10 + archive_name.length + 1

/-- Lines 277-338 of `build_import_descriptor`, in source write order: COFF
file header (machine, 2 sections, timestamp 0, symbol-table start, 7
symbols, two zero fields), the `.idata$2` and `.idata$6` section headers,
the 20 zero bytes of `.idata$2`, the three relocations, and the `.idata$6`
data (module name, NUL-terminated). -/
def descHeaderAndSections (archive_name : Bytes) : Bytes :=
  u16 arch ++ u16 2 ++ u32 0 ++
  u32 (descDataLen archive_name) ++ u32 7 ++ u16 0 ++ u16 0 ++
  idata2Bytes ++ u32 0 ++ u32 0 ++ u32 0x14 ++
  u32 (COFF_HEADER_LEN + 2 * COFF_SECTION_HEADER_LEN) ++
  u32 (COFF_HEADER_LEN + 2 * COFF_SECTION_HEADER_LEN + 0x14) ++
  u32 0 ++ u16 3 ++ u16 0 ++ u32 0xC0300040 ++
  idata6Bytes ++ u32 0 ++ u32 0 ++ u32 (archive_name.length + 1) ++
  u32 (descDataLen archive_name - (archive_name.length + 1)) ++ u32 0 ++ u32 0 ++
  u16 0 ++ u16 0 ++ u32 0xC0200040 ++
  List.replicate 0x14 0 ++
  u32 0x0C ++ u32 2 ++ u16 0x03 ++
  u32 0x00 ++ u32 3 ++ u16 0x03 ++
  u32 0x10 ++ u32 4 ++ u16 0x03 ++
  archive_name ++ [0]

/-- Lines 344-356 of `build_import_descriptor`: the seven symbol-table
entries, in write order, with the running `string_start` offsets (4, then
`+ import_desc_name.len()`, then `+ null_import_data.len()` — the source
does not count the NUL terminators here). -/
def descSymbols (archive_name : Bytes) : Option Bytes := do
  let import_desc_name := importDescBytes ++ moduleStem archive_name
  let s1 ← write_symbol (.Offset 4) 1 IMAGE_SYM_CLASS_EXTERNAL
  let s2 ← write_symbol (.Name idata2Bytes) 1 IMAGE_SYM_CLASS_SECTION
  let s3 ← write_symbol (.Name idata6Bytes) 2 IMAGE_SYM_CLASS_STATIC
  let s4 ← write_symbol (.Name idata4Bytes) 0 IMAGE_SYM_CLASS_SECTION
  let s5 ← write_symbol (.Name idata5Bytes) 0 IMAGE_SYM_CLASS_SECTION
  let s6 ← write_symbol (.Offset (4 + import_desc_name.length)) 0 IMAGE_SYM_CLASS_EXTERNAL
  let s7 ← write_symbol (.Offset (4 + import_desc_name.length + nullImportDescBytes.length))
    0 IMAGE_SYM_CLASS_EXTERNAL
  return s1 ++ s2 ++ s3 ++ s4 ++ s5 ++ s6 ++ s7

/-- Lines 349-358: the string-table contents accumulated alongside the
symbol writes (each of the three long names, NUL-terminated). -/
def descStringTable (archive_name : Bytes) : Bytes :=
  (importDescBytes ++ moduleStem archive_name) ++ [0] ++
  nullImportDescBytes ++ [0] ++
  (0x7F :: (moduleStem archive_name ++ nullThunkBytes)) ++ [0]

/-- `fn build_import_descriptor` (lines 261-367): returns the exported
symbol name together with the member's byte blob — header and sections,
then the symbol table, then the 4-byte string-table length and the string
table, padded to even length (lines 360-366). -/
def build_import_descriptor (archive_name : Bytes) : Option (Bytes × Bytes) := do
  let syms ← descSymbols archive_name
  let buffer := descHeaderAndSections archive_name ++ syms ++
    u32 (descStringTable archive_name).length ++ descStringTable archive_name
  return (importDescBytes ++ moduleStem archive_name, padBuf buffer)

/-- `fn build_null_import_descriptor` (lines 369-421). -/
def build_null_import_descriptor : Option (Bytes × Bytes) := do
  let null_import_data := nullImportDescBytes
  let nSections := 1
  let nSymbols := 1
  let data_len := COFF_HEADER_LEN + nSections * COFF_SECTION_HEADER_LEN + 20
  let buffer :=
    u16 arch ++ u16 nSections ++ u32 0 ++
    u32 data_len ++ u32 nSymbols ++ u16 0 ++ u16 0 ++
    idata3Bytes ++ u32 0 ++ u32 0 ++ u32 0x14 ++
    u32 (COFF_HEADER_LEN + nSections * COFF_SECTION_HEADER_LEN) ++
    u32 0 ++ u32 0 ++ u16 0 ++ u16 0 ++ u32 0xC0300040 ++
    List.replicate 0x14 0
  let string_start := 4
  let s1 ← write_symbol (.Offset string_start) 1 IMAGE_SYM_CLASS_EXTERNAL
  let string_table := null_import_data ++ [0]
  let buffer := buffer ++ s1 ++ u32 string_table.length ++ string_table
  let buffer := if buffer.length % 2 ≠ 0 then buffer ++ [0] else buffer
  return (null_import_data, buffer)

/-- `fn build_null_thunk_data` (lines 423-502). -/
def build_null_thunk_data (archive_name : Bytes) : Option (Bytes × Bytes) := do
  let name := moduleStem archive_name
  let null_thunk_data := 0x7F :: (name ++ nullThunkBytes)
  let va_size := 8
  let nSections := 2
  let nSymbols := 1
  let data_len := COFF_HEADER_LEN + nSections * COFF_SECTION_HEADER_LEN +
    va_size + va_size
  let buffer :=
    u16 arch ++ u16 nSections ++ u32 0 ++
    u32 data_len ++ u32 nSymbols ++ u16 0 ++ u16 0 ++
    idata5Bytes ++ u32 0 ++ u32 0 ++ u32 va_size ++
    u32 (COFF_HEADER_LEN + nSections * COFF_SECTION_HEADER_LEN) ++
    u32 0 ++ u32 0 ++ u16 0 ++ u16 0 ++ u32 0xC0400040 ++
    idata4Bytes ++ u32 0 ++ u32 0 ++ u32 va_size ++
    u32 (COFF_HEADER_LEN + nSections * COFF_SECTION_HEADER_LEN + va_size) ++
    u32 0 ++ u32 0 ++ u16 0 ++ u16 0 ++ u32 0xC0400040 ++
    u64 0 ++
    u64 0
  let string_start := 4
  let s1 ← write_symbol (.Offset string_start) 1 IMAGE_SYM_CLASS_EXTERNAL
  let string_table := null_thunk_data ++ [0]
  let buffer := buffer ++ s1 ++ u32 string_table.length ++ string_table
  let buffer := if buffer.length % 2 ≠ 0 then buffer ++ [0] else buffer
  return (null_thunk_data, buffer)

/-- The byte blob built by `CoffArchiveBuilder::add_short_import`
(lines 224-251), as a pure function of the module name and the import. -/
def short_import_data (archive_name : Bytes) (imp : Import) : Bytes :=
  let item_name := (Import.iname imp).getD []
  let dll_name := archive_name
  let size := dll_name.length + item_name.length + 2
  let ordinal := (Import.iordinal imp).getD 0
  let import_type := 0x00
  let import_name_type := if (Import.iordinal imp).isSome then 0x0 else 0x1
  u16 0x0000 ++ u16 0xFFFF ++ u16 0x0 ++ u16 arch ++ u32 0x0 ++
  u32 size ++ u16 ordinal ++ u16 (import_type + (import_name_type <<< 2)) ++
  item_name ++ [0] ++ dll_name ++ [0]

/-- `IndexMap` lookup on the insertion-ordered association list. -/
def lookupSym : List (Bytes × Nat) → Bytes → Option Nat
  | [], _ => none
  | p :: m, k => if p.1 = k then some p.2 else lookupSym m k

/-- `IndexMap::insert` on the insertion-ordered association list: an existing
key keeps its position and gets the new value, a fresh key is appended. -/
def indexInsert (m : List (Bytes × Nat)) (k : Bytes) (v : Nat) : List (Bytes × Nat) :=
  if (lookupSym m k).isSome then
    m.map (fun p => if p.1 = k then (k, v) else p)
  else
    m ++ [(k, v)]

/-- `struct CoffArchiveBuilder` (lines 188-193). -/
structure CoffArchiveBuilder where
  symbols : List (Bytes × Nat)
  sections : List Bytes
  archive_name : Bytes
deriving DecidableEq, Repr

/-- `CoffArchiveBuilder::new` (lines 196-202). -/
def CoffArchiveBuilder.new (name : Bytes) : CoffArchiveBuilder :=
  { symbols := [], sections := [], archive_name := name }

/-- `CoffArchiveBuilder::add_import_descriptors` (lines 204-221). -/
def CoffArchiveBuilder.add_import_descriptors (b : CoffArchiveBuilder) :
    Option CoffArchiveBuilder := do
  let (name1, data1) ← build_import_descriptor b.archive_name
  let sections1 := b.sections ++ [data1]
  let symbols1 := indexInsert b.symbols name1 sections1.length
  let (name2, data2) ← build_null_import_descriptor
  let sections2 := sections1 ++ [data2]
  let symbols2 := indexInsert symbols1 name2 sections2.length
  let (name3, data3) ← build_null_thunk_data b.archive_name
  let sections3 := sections2 ++ [data3]
  let symbols3 := indexInsert symbols2 name3 sections3.length
  return { b with sections := sections3, symbols := symbols3 }

/-- `CoffArchiveBuilder::add_short_import` (lines 223-258). -/
def CoffArchiveBuilder.add_short_import (b : CoffArchiveBuilder)
    (rust_name : Bytes) (imp : Import) : CoffArchiveBuilder :=
  let data := short_import_data b.archive_name imp
  let sections := b.sections ++ [data]
  let symbols := indexInsert b.symbols (impBytes ++ rust_name) sections.length
  let symbols := indexInsert symbols rust_name sections.length
  { b with sections := sections, symbols := symbols }

/-- The member-collection phase of `build_library` (lines 71-78): descriptors
first, then one short import per specification entry, in entry order. -/
def buildMembers (lib : ImportLibBuilder) : Option CoffArchiveBuilder := do
  let b := CoffArchiveBuilder.new lib.name
  let b ← b.add_import_descriptors
  return lib.imports.foldl (fun b p => b.add_short_import p.1 p.2) b

/-! ## Archive assembly (`build_library` lines 80-176) -/

/-- Decimal digit characters of `n`, as printed by `format!` (most
significant first, no leading zeros, `"0"` for zero). -/
def decBytes (n : Nat) : Bytes :=
  if n = 0 then [48] else ((Nat.digits 10 n).reverse.map (fun d => 48 + d))

/-- `n` space characters. -/
def spaces (n : Nat) : Bytes := List.replicate n 0x20

/-- Left-justified space padding to width `w`, as `format!("{:<w}")`: a
string already longer than `w` is kept whole, never truncated. -/
def padRight (w : Nat) (s : Bytes) : Bytes := s ++ spaces (w - s.length)

/-- `fn write_header` (lines 162-176): the 60-byte archive member header
(name `/`-suffixed and truncated to 15 bytes, date `-1`, blank uid/gid,
mode `0`, decimal size, end marker `` 0x60 0x0A ``). -/
def write_header (name : Bytes) (len : Nat) : Bytes :=
  let n := (if name.length > 15 then name.take 15 else name) ++ [0x2F]
  padRight 16 n ++ padRight 12 dashOneBytes ++ spaces 6 ++ spaces 6 ++
    padRight 8 [48] ++ padRight 10 (decBytes len) ++ [0x60, 0x0A]

/-- `symbol_table_len` (line 85): total length of all symbol names, each
counted with its NUL terminator. -/
def symbolTableLen (b : CoffArchiveBuilder) : Nat :=
  (b.symbols.map (fun s => s.1.length + 1)).sum

/-- `first_linker_len` (line 87). -/
def firstLinkerLen (b : CoffArchiveBuilder) : Nat :=
  4 + 4 * b.symbols.length + symbolTableLen b

/-- `second_linker_len` (line 88). -/
def secondLinkerLen (b : CoffArchiveBuilder) : Nat :=
  8 + 4 * b.sections.length + 2 * b.symbols.length + symbolTableLen b

/-- Round up to even, as the `if import_start % 2 != 0` bumps do. -/
def pad2 (n : Nat) : Nat := if n % 2 ≠ 0 then n + 1 else n

/-- `import_start` after both linker members (lines 90-98): where the first
regular member is computed to begin. -/
def regularStart (b : CoffArchiveBuilder) : Nat :=
  pad2 (pad2 (ARCHIVE_SIG.length + ARCHIVE_HEADER_LEN + firstLinkerLen b) +
    ARCHIVE_HEADER_LEN + secondLinkerLen b)

/-- The offsets loop (lines 100-107): computed absolute offset of each
regular member, walking `ARCHIVE_HEADER_LEN + payload` with even rounding. -/
def computeOffsets (start : Nat) : List Bytes → List Nat
  | [] => []
  | d :: ds => start :: computeOffsets (pad2 (start + ARCHIVE_HEADER_LEN + d.length)) ds

/-- The `offsets` vector of `build_library`. -/
def memberOffsets (b : CoffArchiveBuilder) : List Nat :=
  computeOffsets (regularStart b) b.sections

/-- `symbols.sort_by_key(|c| c.1)` (line 128): stable sort of the symbol
list by owning member index (Rust's `sort_by_key` is stable, as is
`List.insertionSort` with a `≤` relation). -/
def sortByMember (l : List (Bytes × Nat)) : List (Bytes × Nat) :=
  l.insertionSort (fun p q => p.2 ≤ q.2)

/-- Payload of the first linker member (lines 111-121): big-endian symbol
count, one big-endian member offset per symbol in insertion order
(`offsets[i-1]`), then the NUL-terminated names. -/
def firstLinkerPayload (b : CoffArchiveBuilder) : Bytes :=
  u32be b.symbols.length ++
  (b.symbols.map (fun s => u32be ((memberOffsets b).getD (s.2 - 1) 0))).flatten ++
  (b.symbols.map (fun s => s.1 ++ [0])).flatten

/-- Payload of the second linker member (lines 131-145): native-order member
count, member offsets, symbol count, then per symbol (sorted by owning
member index) the 2-byte member index, then the NUL-terminated names. -/
def secondLinkerPayload (b : CoffArchiveBuilder) : Bytes :=
  u32 b.sections.length ++
  ((memberOffsets b).map u32).flatten ++
  u32 (sortByMember b.symbols).length ++
  ((sortByMember b.symbols).map (fun s => u16 s.2)).flatten ++
  ((sortByMember b.symbols).map (fun s => s.1 ++ [0])).flatten

/-- The archive up to and including the two (padded) linker members
(lines 110-149). -/
def archiveHead (b : CoffArchiveBuilder) : Bytes :=
  let buf := ARCHIVE_SIG ++ write_header [] (firstLinkerLen b) ++ firstLinkerPayload b
  let buf := padBuf buf
  let buf := buf ++ write_header [] (secondLinkerLen b) ++ secondLinkerPayload b
  padBuf buf

/-- The regular-member emission loop (lines 151-157) appended after the
linker members: per member an archive header naming the module, the raw
payload, and a pad byte when the buffer length is odd. -/
def assemble (name : Bytes) (b : CoffArchiveBuilder) : Bytes :=
  b.sections.foldl
    (fun buf d => padBuf (buf ++ write_header name d.length ++ d))
    (archiveHead b)

/-- `fn build_library` (lines 69-160): collect the members, then lay out
signature, linker members and regular members. -/
def build_library (lib : ImportLibBuilder) : Option Bytes :=
  (buildMembers lib).map (fun b => assemble lib.name b)

/-- `ImportLibBuilder::build` (lines 54-56). -/
def ImportLibBuilder.build (lib : ImportLibBuilder) : Option Bytes :=
  build_library lib

/-! ## Helpers for reasoning about the emitted layout -/

/-- One emitted unit starting at buffer position `pos`: the raw bytes plus
the `0x00` pad byte appended exactly when the raw bytes end at an odd
buffer position. -/
def padUnit (pos : Nat) (raw : Bytes) : Bytes :=
  if (pos + raw.length) % 2 ≠ 0 then raw ++ [0] else raw

/-- The buffer position reached after emitting the members of `ds` starting
at `pos`, as computed by the offsets loop (header length taken as
`ARCHIVE_HEADER_LEN`, even rounding after each member). -/
def offsetAfter (pos : Nat) : List Bytes → Nat
  | [] => pos
  | d :: ds => offsetAfter (pad2 (pos + ARCHIVE_HEADER_LEN + d.length)) ds

/-- The list of emitted regular-member units (header, payload, optional pad
byte), starting at buffer position `pos`. -/
def regularUnitsList (name : Bytes) (pos : Nat) : List Bytes → List Bytes
  | [] => []
  | d :: ds =>
    let unit := padUnit pos (write_header name d.length ++ d)
    unit :: regularUnitsList name (pos + unit.length) ds

/-- The bytes emitted by the regular-member loop starting at position `pos`. -/
def emitRegulars (name : Bytes) (pos : Nat) (ds : List Bytes) : Bytes :=
  (regularUnitsList name pos ds).flatten

/-! ## Concrete inputs used by counterexamples and witnesses -/

/-- The import-descriptor member built for module name `"m"`. -/
def descM : Bytes := ((build_import_descriptor [109]).getD ([], [])).2

/-- Specification whose second entry's exposed name collides with the
`__imp_`-prefixed symbol of the first entry. -/
def libC8 : ImportLibBuilder :=
  { name := [109],
    imports := [([102], Import.Ordinal 1), ([95, 95, 105, 109, 112, 95, 102], Import.Ordinal 2)] }

/-- The member collection produced for `libC8`. -/
def bC8 : CoffArchiveBuilder := (buildMembers libC8).getD (CoffArchiveBuilder.new [])

/-- The scenario specification of the spec (module `"mydll.a.dll"`, one
ordinal import and two name imports). -/
def libW : ImportLibBuilder :=
  { name := [109, 121, 100, 108, 108, 46, 97, 46, 100, 108, 108],
    imports := [([109, 117, 108, 116], Import.Ordinal 3),
                ([97, 100, 100], Import.Name [97, 100, 100]),
                ([115, 117, 98], Import.Name [115, 117, 98])] }

/-- The member collection produced for `libW`. -/
def bW : CoffArchiveBuilder := (buildMembers libW).getD (CoffArchiveBuilder.new [])

/-- The data blob of the import descriptor member for a module name. -/
def descData (n : Bytes) : Bytes := ((build_import_descriptor n).getD ([], [])).2

/-- The data blob of the null import descriptor member. -/
def nullImpData : Bytes := (build_null_import_descriptor.getD ([], [])).2

/-- The data blob of the null thunk data member for a module name. -/
def nullThunkData (n : Bytes) : Bytes := ((build_null_thunk_data n).getD ([], [])).2

/-- The builder state right after `add_import_descriptors` on a fresh
builder: three descriptor members, their three exported symbols. -/
def initialBuilder (name : Bytes) : CoffArchiveBuilder :=
  { archive_name := name,
    sections := [descData name, nullImpData, nullThunkData name],
    symbols := indexInsert (indexInsert (indexInsert []
      (importDescBytes ++ moduleStem name) 1)
      nullImportDescBytes 2)
      (0x7F :: (moduleStem name ++ nullThunkBytes)) 3 }

/-- Every symbol's member index is a valid 1-based index into the member
list. -/
def symbolsBound (b : CoffArchiveBuilder) : Prop :=
  ∀ s ∈ b.symbols, 1 ≤ s.2 ∧ s.2 ≤ b.sections.length

/-- First linker member unit (header, payload, optional pad byte). -/
def linkerUnit1 (b : CoffArchiveBuilder) : Bytes :=
  padUnit ARCHIVE_SIG.length (write_header [] (firstLinkerLen b) ++ firstLinkerPayload b)

/-- Second linker member unit (header, payload, optional pad byte). -/
def linkerUnit2 (b : CoffArchiveBuilder) : Bytes :=
  padUnit (ARCHIVE_SIG.length + (linkerUnit1 b).length)
    (write_header [] (secondLinkerLen b) ++ secondLinkerPayload b)

/-- The seven symbol-table entries of the import descriptor member, as the
successful results of the seven `write_symbol` calls (lines 344-356): the
descriptor symbol in offset form, the four literal section-name symbols,
and two further offset-form entries (section number 0) referencing the
`__NULL_IMPORT_DESCRIPTOR` and null-thunk names. -/
def descSymbolTable (n : Bytes) : List Bytes :=
  [u32 0x00 ++ u32 4 ++ u32 0x00 ++ u16 1 ++ u16 0x00 ++ [IMAGE_SYM_CLASS_EXTERNAL, 0x00],
   idata2Bytes ++ u32 0x00 ++ u16 1 ++ u16 0x00 ++ [IMAGE_SYM_CLASS_SECTION, 0x00],
   idata6Bytes ++ u32 0x00 ++ u16 2 ++ u16 0x00 ++ [IMAGE_SYM_CLASS_STATIC, 0x00],
   idata4Bytes ++ u32 0x00 ++ u16 0 ++ u16 0x00 ++ [IMAGE_SYM_CLASS_SECTION, 0x00],
   idata5Bytes ++ u32 0x00 ++ u16 0 ++ u16 0x00 ++ [IMAGE_SYM_CLASS_SECTION, 0x00],
   u32 0x00 ++ u32 (4 + (importDescBytes ++ moduleStem n).length) ++ u32 0x00 ++
     u16 0 ++ u16 0x00 ++ [IMAGE_SYM_CLASS_EXTERNAL, 0x00],
   u32 0x00 ++ u32 (4 + (importDescBytes ++ moduleStem n).length + nullImportDescBytes.length) ++
     u32 0x00 ++ u16 0 ++ u16 0x00 ++ [IMAGE_SYM_CLASS_EXTERNAL, 0x00]]

/-! ## Byte-level lemmas -/

theorem length_u16 (n : Nat) : (u16 n).length = 2 := rfl

theorem length_u32 (n : Nat) : (u32 n).length = 4 := rfl

theorem length_u32be (n : Nat) : (u32be n).length = 4 := rfl

theorem decU16_u16 (n : Nat) : decU16 (u16 n) = n % 65536 := by
  simp [decU16, u16]
  omega

theorem decU32_u32 (n : Nat) : decU32 (u32 n) = n % 4294967296 := by
  simp [decU32, u32]
  omega

theorem decU32be_u32be (n : Nat) : decU32be (u32be n) = n % 4294967296 := by
  simp [decU32be, u32be]
  omega

theorem decU16_u16_of_lt {n : Nat} (h : n < 65536) : decU16 (u16 n) = n := by
  rw [decU16_u16, Nat.mod_eq_of_lt h]

theorem decU32be_u32be_of_lt {n : Nat} (h : n < 4294967296) : decU32be (u32be n) = n := by
  rw [decU32be_u32be, Nat.mod_eq_of_lt h]

/-! ## Symbol index (IndexMap) lemmas -/

theorem lookupSym_map_overwrite_ne (m : List (Bytes × Nat)) (k : Bytes) (v : Nat)
    {q : Bytes} (h : q ≠ k) :
    lookupSym (m.map (fun p => if p.1 = k then (k, v) else p)) q = lookupSym m q := by
  induction m with
  | nil => rfl
  | cons p m ih =>
    by_cases hp : p.1 = k
    · simp [lookupSym, hp, Ne.symm h, ih]
    · simp only [List.map_cons, if_neg hp, lookupSym, ih]

theorem lookupSym_map_overwrite_self (m : List (Bytes × Nat)) (k : Bytes) (v : Nat)
    (h : (lookupSym m k).isSome = true) :
    lookupSym (m.map (fun p => if p.1 = k then (k, v) else p)) k = some v := by
  induction m with
  | nil => simp [lookupSym] at h
  | cons p m ih =>
    by_cases hp : p.1 = k
    · simp [lookupSym, hp]
    · simp only [lookupSym, if_neg hp] at h
      simp only [List.map_cons, if_neg hp, lookupSym, if_neg hp, ih h]

theorem lookupSym_append (m₁ m₂ : List (Bytes × Nat)) (q : Bytes) :
    lookupSym (m₁ ++ m₂) q = (lookupSym m₁ q).or (lookupSym m₂ q) := by
  induction m₁ with
  | nil => simp [lookupSym]
  | cons p m ih =>
    by_cases hp : p.1 = q
    · simp [lookupSym, hp]
    · simp [lookupSym, hp, ih]

theorem lookupSym_indexInsert_self (m : List (Bytes × Nat)) (k : Bytes) (v : Nat) :
    lookupSym (indexInsert m k v) k = some v := by
  unfold indexInsert
  split
  next h => exact lookupSym_map_overwrite_self m k v h
  next h =>
    rw [lookupSym_append, Option.not_isSome_iff_eq_none.mp h]
    simp [lookupSym]

theorem lookupSym_indexInsert_ne (m : List (Bytes × Nat)) (k : Bytes) (v : Nat)
    {q : Bytes} (h : q ≠ k) :
    lookupSym (indexInsert m k v) q = lookupSym m q := by
  unfold indexInsert
  split
  · exact lookupSym_map_overwrite_ne m k v h
  · rw [lookupSym_append]
    simp [lookupSym, Ne.symm h]

theorem mem_indexInsert {s : Bytes × Nat} {m : List (Bytes × Nat)} {k : Bytes} {v : Nat}
    (h : s ∈ indexInsert m k v) : s ∈ m ∨ s = (k, v) := by
  unfold indexInsert at h
  split at h
  · obtain ⟨p, hp, he⟩ := List.mem_map.mp h
    by_cases hk : p.1 = k
    · right
      rw [if_pos hk] at he
      exact he.symm
    · left
      rw [if_neg hk] at he
      exact he ▸ hp
  · rcases List.mem_append.mp h with h' | h'
    · exact Or.inl h'
    · exact Or.inr (List.mem_singleton.mp h')

/-! ## Member-collection lemmas -/

theorem build_import_descriptor_isSome (n : Bytes) :
    (build_import_descriptor n).isSome = true := by
  simp [build_import_descriptor, descSymbols, write_symbol, idata2Bytes, idata4Bytes, idata5Bytes, idata6Bytes]

theorem build_import_descriptor_fst (n : Bytes) :
    ((build_import_descriptor n).getD ([], [])).1 =
      importDescBytes ++ moduleStem n := rfl

theorem build_import_descriptor_eq (n : Bytes) :
    build_import_descriptor n =
      some (importDescBytes ++ moduleStem n, descData n) := by
  have h := build_import_descriptor_isSome n
  cases hr : build_import_descriptor n with
  | none => rw [hr] at h; simp at h
  | some r =>
    have h1 : r.1 = importDescBytes ++ moduleStem n := by
      have h2 := build_import_descriptor_fst n
      rw [hr] at h2
      simpa using h2
    have h2 : r.2 = descData n := by
      unfold descData
      rw [hr]
      rfl
    rw [← h1, ← h2]

theorem descSymbols_eq (n : Bytes) : descSymbols n = some ((descSymbolTable n).flatten) := by
  simp [descSymbols, write_symbol, descSymbolTable, idata2Bytes, idata4Bytes, idata5Bytes,
    idata6Bytes, List.append_assoc]

theorem build_import_descriptor_structure (n : Bytes) :
    build_import_descriptor n = some (importDescBytes ++ moduleStem n,
      padBuf (descHeaderAndSections n ++ (descSymbolTable n).flatten ++
        u32 (descStringTable n).length ++ descStringTable n)) := by
  rw [build_import_descriptor, descSymbols_eq]
  rfl

theorem build_null_import_descriptor_isSome :
    build_null_import_descriptor.isSome = true := by
  simp [build_null_import_descriptor, write_symbol]

theorem build_null_import_descriptor_fst :
    (build_null_import_descriptor.getD ([], [])).1 =
      nullImportDescBytes := rfl

theorem build_null_import_descriptor_eq :
    build_null_import_descriptor =
      some (nullImportDescBytes, nullImpData) := by
  have h := build_null_import_descriptor_isSome
  cases hr : build_null_import_descriptor with
  | none => rw [hr] at h; simp at h
  | some r =>
    have h1 : r.1 = nullImportDescBytes := by
      have h2 := build_null_import_descriptor_fst
      rw [hr] at h2
      simpa using h2
    have h2 : r.2 = nullImpData := by
      unfold nullImpData
      rw [hr]
      rfl
    rw [← h1, ← h2]

theorem build_null_thunk_data_isSome (n : Bytes) :
    (build_null_thunk_data n).isSome = true := by
  simp [build_null_thunk_data, write_symbol]

theorem build_null_thunk_data_fst (n : Bytes) :
    ((build_null_thunk_data n).getD ([], [])).1 =
      0x7F :: (moduleStem n ++ nullThunkBytes) := rfl

theorem build_null_thunk_data_eq (n : Bytes) :
    build_null_thunk_data n =
      some (0x7F :: (moduleStem n ++ nullThunkBytes), nullThunkData n) := by
  have h := build_null_thunk_data_isSome n
  cases hr : build_null_thunk_data n with
  | none => rw [hr] at h; simp at h
  | some r =>
    have h1 : r.1 = 0x7F :: (moduleStem n ++ nullThunkBytes) := by
      have h2 := build_null_thunk_data_fst n
      rw [hr] at h2
      simpa using h2
    have h2 : r.2 = nullThunkData n := by
      unfold nullThunkData
      rw [hr]
      rfl
    rw [← h1, ← h2]

theorem add_import_descriptors_new (name : Bytes) :
    (CoffArchiveBuilder.new name).add_import_descriptors = some (initialBuilder name) := by
  rw [CoffArchiveBuilder.add_import_descriptors]
  have hn : (CoffArchiveBuilder.new name).archive_name = name := rfl
  rw [hn, build_import_descriptor_eq, build_null_import_descriptor_eq, build_null_thunk_data_eq]
  simp only [Option.pure_def, Option.bind_eq_bind, Option.some_bind]
  simp only [initialBuilder, CoffArchiveBuilder.new, List.nil_append, List.singleton_append,
    List.length_cons, List.length_nil]
  simp

theorem buildMembers_eq (lib : ImportLibBuilder) :
    buildMembers lib =
      some (lib.imports.foldl (fun b p => b.add_short_import p.1 p.2) (initialBuilder lib.name)) := by
  rw [buildMembers]
  simp [add_import_descriptors_new]

theorem foldl_add_short_import_name (L : List (Bytes × Import)) (b0 : CoffArchiveBuilder) :
    (L.foldl (fun b p => b.add_short_import p.1 p.2) b0).archive_name = b0.archive_name := by
  induction L generalizing b0 with
  | nil => rfl
  | cons x L ih => simpa [CoffArchiveBuilder.add_short_import] using ih _

theorem foldl_add_short_import_sections (L : List (Bytes × Import)) (b0 : CoffArchiveBuilder) :
    (L.foldl (fun b p => b.add_short_import p.1 p.2) b0).sections =
      b0.sections ++ L.map (fun p => short_import_data b0.archive_name p.2) := by
  induction L generalizing b0 with
  | nil => simp
  | cons x L ih =>
    simp only [List.foldl_cons, List.map_cons, ih]
    simp [CoffArchiveBuilder.add_short_import]

theorem buildMembers_archive_name {lib : ImportLibBuilder} {b : CoffArchiveBuilder}
    (hb : buildMembers lib = some b) : b.archive_name = lib.name := by
  rw [buildMembers_eq] at hb
  cases hb
  rw [foldl_add_short_import_name]
  rfl

theorem buildMembers_sections {lib : ImportLibBuilder} {b : CoffArchiveBuilder}
    (hb : buildMembers lib = some b) :
    b.sections = [descData lib.name, nullImpData, nullThunkData lib.name] ++
      lib.imports.map (fun p => short_import_data lib.name p.2) := by
  rw [buildMembers_eq] at hb
  cases hb
  rw [foldl_add_short_import_sections]
  rfl

theorem buildMembers_sections_length {lib : ImportLibBuilder} {b : CoffArchiveBuilder}
    (hb : buildMembers lib = some b) :
    b.sections.length = 3 + lib.imports.length := by
  rw [buildMembers_sections hb]
  simp only [List.length_append, List.length_cons, List.length_nil, List.length_map]

theorem add_short_import_bound {b : CoffArchiveBuilder} (h : symbolsBound b)
    (x : Bytes) (i : Import) : symbolsBound (b.add_short_import x i) := by
  intro s hs
  simp only [CoffArchiveBuilder.add_short_import] at hs ⊢
  rcases mem_indexInsert hs with hs' | hs'
  · rcases mem_indexInsert hs' with hs'' | hs''
    · have := h s hs''
      simp only [List.length_append, List.length_cons, List.length_nil]
      omega
    · subst hs''
      simp only [List.length_append, List.length_cons, List.length_nil]
      omega
  · subst hs'
    simp only [List.length_append, List.length_cons, List.length_nil]
    omega

theorem foldl_add_short_import_bound (L : List (Bytes × Import)) {b0 : CoffArchiveBuilder}
    (h : symbolsBound b0) :
    symbolsBound (L.foldl (fun b p => b.add_short_import p.1 p.2) b0) := by
  induction L generalizing b0 with
  | nil => exact h
  | cons x L ih => exact ih (add_short_import_bound h x.1 x.2)

theorem initialBuilder_bound (name : Bytes) : symbolsBound (initialBuilder name) := by
  intro s hs
  simp only [initialBuilder] at hs ⊢
  rcases mem_indexInsert hs with hs' | hs'
  · rcases mem_indexInsert hs' with hs'' | hs''
    · rcases mem_indexInsert hs'' with hs''' | hs''' <;> simp_all
    · simp_all
  · simp_all

theorem buildMembers_bound {lib : ImportLibBuilder} {b : CoffArchiveBuilder}
    (hb : buildMembers lib = some b) : symbolsBound b := by
  rw [buildMembers_eq] at hb
  cases hb
  exact foldl_add_short_import_bound _ (initialBuilder_bound _)

/-! ## Layout lemmas -/

theorem pad2_even (n : Nat) : pad2 n % 2 = 0 := by
  unfold pad2
  split <;> omega

theorem padBuf_append (a c : Bytes) : padBuf (a ++ c) = a ++ padUnit a.length c := by
  unfold padBuf padUnit
  rw [List.length_append]
  split <;> simp

theorem padUnit_length (pos : Nat) (raw : Bytes) :
    pos + (padUnit pos raw).length = pad2 (pos + raw.length) := by
  unfold padUnit pad2
  split <;> simp <;> omega

theorem padUnit_length_even {pos : Nat} (h : pos % 2 = 0) (raw : Bytes) :
    (padUnit pos raw).length % 2 = 0 := by
  have h1 := padUnit_length pos raw
  have h2 := pad2_even (pos + raw.length)
  omega

theorem padRight_length {w : Nat} {s : Bytes} (h : s.length ≤ w) :
    (padRight w s).length = w := by
  simp [padRight, spaces]
  omega

theorem decBytes_length_le {n : Nat} (h : n < 10 ^ 10) : (decBytes n).length ≤ 10 := by
  unfold decBytes
  split
  · simp
  · rw [List.length_map, List.length_reverse]
    by_contra hlen
    have h11 : 11 ≤ (Nat.digits 10 n).length := by omega
    have hp := Nat.base_pow_length_digits_le 10 n (by norm_num)
      (by assumption)
    have hpow : (10 : Nat) ^ 11 ≤ 10 ^ (Nat.digits 10 n).length :=
      Nat.pow_le_pow_right (by norm_num) h11
    have : (10 : Nat) ^ 11 ≤ 10 * n := le_trans hpow hp
    have : (10 : Nat) ^ 10 ≤ n := by
      have : (10 : Nat) * 10 ^ 10 ≤ 10 * n := by
        calc (10 : Nat) * 10 ^ 10 = 10 ^ 11 := by ring
        _ ≤ 10 * n := this
      omega
    omega

theorem write_header_length {len : Nat} (name : Bytes) (h : len < 10 ^ 10) :
    (write_header name len).length = 60 := by
  unfold write_header
  have h1 : ((if name.length > 15 then name.take 15 else name) ++ [0x2F]).length ≤ 16 := by
    split <;> simp [List.length_take] <;> omega
  have h2 : dashOneBytes.length ≤ 12 := by simp [dashOneBytes]
  have h3 : ([48] : Bytes).length ≤ 8 := by simp
  have h4 := decBytes_length_le h
  simp only [List.length_append, padRight_length h1, padRight_length h2,
    padRight_length h3, padRight_length h4, spaces, List.length_replicate,
    List.length_cons, List.length_nil]

theorem ARCHIVE_SIG_length : ARCHIVE_SIG.length = 8 := rfl

theorem regularUnitsList_length (name : Bytes) (pos : Nat) (ds : List Bytes) :
    (regularUnitsList name pos ds).length = ds.length := by
  induction ds generalizing pos with
  | nil => rfl
  | cons d ds ih => simp [regularUnitsList, ih]

theorem foldl_padBuf_emit (name : Bytes) (ds : List Bytes) :
    ∀ buf : Bytes,
      ds.foldl (fun buf d => padBuf (buf ++ write_header name d.length ++ d)) buf =
        buf ++ emitRegulars name buf.length ds := by
  induction ds with
  | nil => intro buf; simp [emitRegulars, regularUnitsList]
  | cons d ds ih =>
    intro buf
    rw [List.foldl_cons, List.append_assoc buf, padBuf_append, ih]
    simp only [emitRegulars, regularUnitsList, List.flatten_cons]
    rw [List.length_append, ← List.append_assoc]

theorem emitRegulars_length (name : Bytes) (ds : List Bytes)
    (h : ∀ d ∈ ds, d.length < 10 ^ 10) :
    ∀ pos, pos + (emitRegulars name pos ds).length = offsetAfter pos ds := by
  induction ds with
  | nil => intro pos; simp [emitRegulars, regularUnitsList, offsetAfter]
  | cons d ds ih =>
    intro pos
    have hd : d.length < 10 ^ 10 := h d (List.mem_cons_self d ds)
    have hds : ∀ x ∈ ds, x.length < 10 ^ 10 := fun x hx => h x (List.mem_cons_of_mem d hx)
    simp only [emitRegulars, regularUnitsList, List.flatten_cons, offsetAfter]
    rw [List.length_append]
    have hstep : pos + (padUnit pos (write_header name d.length ++ d)).length =
        pad2 (pos + ARCHIVE_HEADER_LEN + d.length) := by
      rw [padUnit_length, List.length_append, write_header_length name hd]
      have : ARCHIVE_HEADER_LEN = 60 := rfl
      rw [this]
      ring_nf
    calc pos + ((padUnit pos (write_header name d.length ++ d)).length +
          (emitRegulars name (pos + (padUnit pos (write_header name d.length ++ d)).length) ds).length)
        = (pos + (padUnit pos (write_header name d.length ++ d)).length) +
          (emitRegulars name (pos + (padUnit pos (write_header name d.length ++ d)).length) ds).length := by
          omega
      _ = offsetAfter (pad2 (pos + ARCHIVE_HEADER_LEN + d.length)) ds := by
          rw [← hstep] at *
          exact ih hds _
      _ = offsetAfter pos (d :: ds) := rfl

theorem regularUnitsList_append (name : Bytes) (l1 l2 : List Bytes) :
    ∀ pos, regularUnitsList name pos (l1 ++ l2) =
      regularUnitsList name pos l1 ++
        regularUnitsList name (pos + (emitRegulars name pos l1).length) l2 := by
  induction l1 with
  | nil => intro pos; simp [regularUnitsList, emitRegulars]
  | cons d l1 ih =>
    intro pos
    simp only [List.cons_append, regularUnitsList, List.cons_append, emitRegulars,
      List.flatten_cons, List.length_append, List.append_eq]
    rw [ih]
    congr 2
    congr 1
    simp only [emitRegulars]
    omega

theorem computeOffsets_length (start : Nat) (ds : List Bytes) :
    (computeOffsets start ds).length = ds.length := by
  induction ds generalizing start with
  | nil => rfl
  | cons d ds ih => simp [computeOffsets, ih]

theorem computeOffsets_getD (ds : List Bytes) :
    ∀ start k, k < ds.length →
      (computeOffsets start ds).getD k 0 = offsetAfter start (ds.take k) := by
  induction ds with
  | nil => intro start k hk; simp at hk
  | cons d ds ih =>
    intro start k hk
    cases k with
    | zero => simp [computeOffsets, offsetAfter]
    | succ k =>
      simp only [computeOffsets, List.getD_cons_succ, List.take_succ_cons, offsetAfter]
      exact ih _ k (by simpa using hk)

theorem flatten_map_length {α : Type} (f : α → Bytes) (l : List α) :
    ((l.map f).flatten).length = (l.map (fun x => (f x).length)).sum := by
  rw [List.length_flatten, List.map_map]
  rfl

theorem sum_map_const_four {α : Type} (l : List α) :
    (l.map (fun _ => 4)).sum = 4 * l.length := by
  induction l with
  | nil => simp
  | cons x l ih => simp [ih]; omega

theorem sum_map_const_two {α : Type} (l : List α) :
    (l.map (fun _ => 2)).sum = 2 * l.length := by
  induction l with
  | nil => simp
  | cons x l ih => simp [ih]; omega

theorem memberOffsets_length (b : CoffArchiveBuilder) :
    (memberOffsets b).length = b.sections.length := by
  unfold memberOffsets
  exact computeOffsets_length _ _

theorem firstLinkerPayload_length (b : CoffArchiveBuilder) :
    (firstLinkerPayload b).length = firstLinkerLen b := by
  unfold firstLinkerPayload firstLinkerLen symbolTableLen
  simp only [List.length_append, length_u32be, flatten_map_length, List.length_singleton]
  rw [sum_map_const_four]

theorem sortByMember_perm (l : List (Bytes × Nat)) : (sortByMember l).Perm l :=
  List.perm_insertionSort _ l

theorem sortByMember_length (l : List (Bytes × Nat)) : (sortByMember l).length = l.length :=
  (sortByMember_perm l).length_eq

theorem secondLinkerPayload_length (b : CoffArchiveBuilder) :
    (secondLinkerPayload b).length = secondLinkerLen b := by
  unfold secondLinkerPayload secondLinkerLen symbolTableLen
  simp only [List.length_append, length_u32, length_u16, flatten_map_length,
    List.length_singleton]
  rw [sum_map_const_four, sum_map_const_two, memberOffsets_length, sortByMember_length]
  have h3 : ((sortByMember b.symbols).map (fun x => x.1.length + 1)).sum =
      (b.symbols.map (fun s => s.1.length + 1)).sum :=
    ((sortByMember_perm b.symbols).map _).sum_eq
  omega

theorem archiveHead_eq (b : CoffArchiveBuilder) :
    archiveHead b = ARCHIVE_SIG ++ linkerUnit1 b ++ linkerUnit2 b := by
  have step1 : padBuf (ARCHIVE_SIG ++ write_header [] (firstLinkerLen b) ++
      firstLinkerPayload b) = ARCHIVE_SIG ++ linkerUnit1 b := by
    rw [List.append_assoc, padBuf_append]
    rfl
  have step2 : padBuf ((ARCHIVE_SIG ++ linkerUnit1 b) ++ write_header [] (secondLinkerLen b) ++
      secondLinkerPayload b) = (ARCHIVE_SIG ++ linkerUnit1 b) ++ linkerUnit2 b := by
    rw [List.append_assoc, padBuf_append]
    unfold linkerUnit2
    rw [List.length_append]
  show padBuf (padBuf (ARCHIVE_SIG ++ write_header [] (firstLinkerLen b) ++
      firstLinkerPayload b) ++ write_header [] (secondLinkerLen b) ++
      secondLinkerPayload b) = ARCHIVE_SIG ++ linkerUnit1 b ++ linkerUnit2 b
  rw [step1, step2]

theorem archiveHead_length (b : CoffArchiveBuilder)
    (h1 : firstLinkerLen b < 10 ^ 10) (h2 : secondLinkerLen b < 10 ^ 10) :
    (archiveHead b).length = regularStart b := by
  rw [archiveHead_eq]
  have e1 : ARCHIVE_SIG.length + (linkerUnit1 b).length =
      pad2 (ARCHIVE_SIG.length + ARCHIVE_HEADER_LEN + firstLinkerLen b) := by
    unfold linkerUnit1
    rw [padUnit_length, List.length_append, write_header_length _ h1,
      firstLinkerPayload_length]
    congr 1
    have : ARCHIVE_HEADER_LEN = 60 := rfl
    rw [this]
    omega
  have e2 : ARCHIVE_SIG.length + (linkerUnit1 b).length + (linkerUnit2 b).length =
      pad2 (pad2 (ARCHIVE_SIG.length + ARCHIVE_HEADER_LEN + firstLinkerLen b) +
        ARCHIVE_HEADER_LEN + secondLinkerLen b) := by
    unfold linkerUnit2
    rw [padUnit_length, List.length_append, write_header_length _ h2,
      secondLinkerPayload_length, e1]
    congr 1
    have : ARCHIVE_HEADER_LEN = 60 := rfl
    rw [this]
    omega
  rw [List.length_append, List.length_append]
  rw [regularStart]
  omega

theorem assemble_eq (name : Bytes) (b : CoffArchiveBuilder) :
    assemble name b = archiveHead b ++ emitRegulars name (archiveHead b).length b.sections := by
  unfold assemble
  exact foldl_padBuf_emit name b.sections (archiveHead b)

/-! ## Claim theorems -/

/-- C4 (evaluating the code at the failing input): `write_symbol` applied to
the 9-byte literal name `"ABCDEFGHI"` does NOT fail — it silently encodes
only the first 8 bytes `"ABCDEFGH"` — while a 4-byte literal name hits the
out-of-bounds slice (a panic, modelled `none`) rather than a clean error.
The claim that any literal name whose length is not exactly 8 fails with an
error is contradicted by the truncation branch. -/
theorem C4_literal_name_truncation :
    write_symbol (SymbolName.Name [65, 66, 67, 68, 69, 70, 71, 72, 73]) 1
        IMAGE_SYM_CLASS_EXTERNAL =
      some ([65, 66, 67, 68, 69, 70, 71, 72] ++ u32 0x00 ++ u16 1 ++ u16 0x00 ++
        [IMAGE_SYM_CLASS_EXTERNAL, 0x00]) ∧
    write_symbol (SymbolName.Name [65, 66, 67, 68]) 1 IMAGE_SYM_CLASS_EXTERNAL = none :=
  ⟨rfl, rfl⟩

/-- C3 (evaluating the code at the failing input, module name `"m"`): in the
descriptor member the symbol table starts at byte 152 (20-byte file
header, two 40-byte section headers, 20 bytes of `.idata$2` data, 30 bytes
of relocations, 2 bytes of `.idata$6` data).  The 6th symbol entry stores
string-table offset 25 for `__NULL_IMPORT_DESCRIPTOR`, but in the string
table (which starts at byte 278, its 4-byte length field holding 66) offset
25 is the NUL terminator of the previous name and `__NULL_IMPORT_DESCRIPTOR`
actually begins at offset 26; likewise the 7th entry stores 49 while the
null-thunk name begins at offset 51.  The stored offsets do not locate the
names: the source advances `string_start` by `name.len()` without the NUL. -/
theorem C3_string_table_offset_bug :
    build_import_descriptor [109] = some (importDescBytes ++ [109], descM) ∧
    decU32 ((((descM.drop 152).drop (5 * 18)).drop 4).take 4) = 25 ∧
    decU32 ((descM.drop 278).take 4) = 66 ∧
    (descM.drop 278).getD 25 99 = 0 ∧
    ((descM.drop 278).drop 26).take 24 = nullImportDescBytes ∧
    decU32 ((((descM.drop 152).drop (6 * 18)).drop 4).take 4) = 49 ∧
    ((descM.drop 278).drop 51).take 18 = 0x7F :: ([109] ++ nullThunkBytes) := by
  refine ⟨rfl, by decide, by decide, by decide, by decide, by decide, by decide⟩

/-- C9 counterexample: for module name `"m"` the COFF file header of the
descriptor member stores symbol count 7, not 5, so the header's
symbol count does not reflect exactly the five claimed exports. -/
theorem C9_counterexample :
    decU32 ((descM.drop 12).take 4) = 7 ∧
    ¬ decU32 ((descM.drop 12).take 4) = 5 ∧
    build_import_descriptor [109] = some (importDescBytes ++ [109], descM) := by
  refine ⟨by decide, by decide, rfl⟩

/-- C9 (amended): the import descriptor member writes exactly SEVEN
symbol-table entries — the descriptor symbol (offset form, offset 4,
section 1), the four 8-byte section-name symbols `.idata$2`, `.idata$6`,
`.idata$4`, `.idata$5`, and two additional offset-form entries with section
number 0 referencing the `__NULL_IMPORT_DESCRIPTOR` and null-thunk names —
and the COFF file header's symbol-count field reads 7 accordingly. -/
theorem C9_amended_structure (n : Bytes) :
    build_import_descriptor n = some (importDescBytes ++ moduleStem n,
      padBuf (descHeaderAndSections n ++ (descSymbolTable n).flatten ++
        u32 (descStringTable n).length ++ descStringTable n)) ∧
    (descSymbolTable n).length = 7 ∧
    (∀ e ∈ descSymbolTable n, e.length = 18) ∧
    (descHeaderAndSections n).length = 151 + n.length ∧
    decU32 (((descHeaderAndSections n).drop 12).take 4) = 7 := by
  refine ⟨build_import_descriptor_structure n, rfl, ?_, ?_, ?_⟩
  · intro e he
    simp only [descSymbolTable, List.mem_cons, List.not_mem_nil, or_false] at he
    rcases he with h | h | h | h | h | h | h <;> subst h <;>
      simp [length_u32, length_u16, List.length_append, idata2Bytes, idata4Bytes,
        idata5Bytes, idata6Bytes]
  · simp [descHeaderAndSections, length_u32, length_u16, List.length_append,
      idata2Bytes, idata6Bytes]
    omega
  · have h : ((descHeaderAndSections n).drop 12).take 4 = u32 7 := by
      simp [descHeaderAndSections, List.drop_append_eq_append_drop,
        List.take_append_eq_append_take, length_u16, length_u32, idata2Bytes, idata6Bytes,
        List.length_append, List.take_of_length_le, List.drop_eq_nil_of_le]
    rw [h, decU32_u32]

/-- C8 counterexample: for the specification with module `"m"` and entries
`[("f", Ordinal 1), ("__imp_f", Ordinal 2)]`, the final symbol index binds
`"f"` to member 4 but `"__imp_f"` to member 5 (the second entry's insertion
overwrote the first entry's `__imp_f` binding), so the two names of the
first entry are NOT bound to the same member. -/
theorem C8_counterexample :
    buildMembers libC8 = some bC8 ∧
    lookupSym bC8.symbols [102] = some 4 ∧
    lookupSym bC8.symbols (impBytes ++ [102]) = some 5 ∧
    ¬ lookupSym bC8.symbols [102] = lookupSym bC8.symbols (impBytes ++ [102]) := by
  refine ⟨rfl, by decide, by decide, by decide⟩

/-- C10: every literal section-name symbol passed to `write_symbol` at any
call site (`".idata$2"`, `".idata$6"`, `".idata$4"`, `".idata$5"`) is
exactly 8 bytes long, so the 8-byte slice taken from a literal name is
always in bounds and the whole build is total: `build_library` succeeds on
every input specification. -/
theorem C10_literal_names_total (lib : ImportLibBuilder) :
    idata2Bytes.length = 8 ∧ idata6Bytes.length = 8 ∧ idata4Bytes.length = 8 ∧
    idata5Bytes.length = 8 ∧ (build_library lib).isSome = true := by
  refine ⟨rfl, rfl, rfl, rfl, ?_⟩
  rw [build_library, buildMembers_eq]
  rfl

/-- C5: the short-import record encodes the Import variant exclusively.  For
`Ordinal v` (with `v` in `u16` range) the record is the fixed prefix, a
4-byte size field holding `|module| + 2` (empty name string, so the two
trailing NUL-terminated strings are `"\0"` and the module name with NUL),
the 2-byte ordinal field holding `v`, the 2-byte type field holding the
code-import tag `0` plus name-type tag `0` shifted left by 2, then the empty
name NUL-terminated and the module name NUL-terminated.  For `Name s` the
ordinal field holds 0, the name-type tag is 1 (type field `0 + 1 <<< 2 =
4`), the size field holds `|s| + |module| + 2`, and the strings are `s`
NUL-terminated then the module name NUL-terminated. -/
theorem C5_short_import_encoding (dll s : Bytes) (v : Nat) (hv : v < 65536)
    (hs : s.length + dll.length + 2 < 4294967296)
    (hd : dll.length + 2 < 4294967296) :
    (short_import_data dll (Import.Ordinal v) =
      u16 0x0000 ++ u16 0xFFFF ++ u16 0x0 ++ u16 arch ++ u32 0x0 ++
      u32 (dll.length + 2) ++ u16 v ++ u16 (0x00 + (0x0 <<< 2)) ++
      [0] ++ dll ++ [0]) ∧
    decU16 (((short_import_data dll (Import.Ordinal v)).drop 16).take 2) = v ∧
    decU16 (((short_import_data dll (Import.Ordinal v)).drop 18).take 2) = 0x00 + (0x0 <<< 2) ∧
    decU32 (((short_import_data dll (Import.Ordinal v)).drop 12).take 4) = dll.length + 2 ∧
    (short_import_data dll (Import.Ordinal v)).drop 20 = [0] ++ dll ++ [0] ∧
    (short_import_data dll (Import.Name s) =
      u16 0x0000 ++ u16 0xFFFF ++ u16 0x0 ++ u16 arch ++ u32 0x0 ++
      u32 (dll.length + s.length + 2) ++ u16 0 ++ u16 (0x00 + (0x1 <<< 2)) ++
      s ++ [0] ++ dll ++ [0]) ∧
    decU16 (((short_import_data dll (Import.Name s)).drop 16).take 2) = 0 ∧
    decU16 (((short_import_data dll (Import.Name s)).drop 18).take 2) = 0x00 + (0x1 <<< 2) ∧
    decU32 (((short_import_data dll (Import.Name s)).drop 12).take 4) =
      s.length + dll.length + 2 ∧
    (short_import_data dll (Import.Name s)).drop 20 = s ++ [0] ++ dll ++ [0] := by
  have hord : short_import_data dll (Import.Ordinal v) =
      u16 0x0000 ++ u16 0xFFFF ++ u16 0x0 ++ u16 arch ++ u32 0x0 ++
      u32 (dll.length + 2) ++ u16 v ++ u16 (0x00 + (0x0 <<< 2)) ++
      [0] ++ dll ++ [0] := by
    simp [short_import_data, Import.iname, Import.iordinal]
  have hname : short_import_data dll (Import.Name s) =
      u16 0x0000 ++ u16 0xFFFF ++ u16 0x0 ++ u16 arch ++ u32 0x0 ++
      u32 (dll.length + s.length + 2) ++ u16 0 ++ u16 (0x00 + (0x1 <<< 2)) ++
      s ++ [0] ++ dll ++ [0] := by
    simp [short_import_data, Import.iname, Import.iordinal]
  refine ⟨hord, ?_, ?_, ?_, ?_, hname, ?_, ?_, ?_, ?_⟩
  all_goals try rw [hord]
  all_goals try rw [hname]
  all_goals simp [List.drop_append_eq_append_drop, List.take_append_eq_append_take,
    length_u16, length_u32, List.take_of_length_le, List.drop_eq_nil_of_le,
    List.append_assoc, decU16_u16, decU32_u32, List.length_append, Nat.shiftLeft_eq]
  all_goals omega

/-- Witness for C5 at module name `"mydll.dll"`, ordinal 3 and name
`"add"` (the spec's own example values). -/
theorem C5_short_import_encoding_witness :
    (3 : Nat) < 65536 ∧
    ([97, 100, 100] : Bytes).length +
      ([109, 121, 100, 108, 108, 46, 100, 108, 108] : Bytes).length + 2 < 4294967296 ∧
    decU16 (((short_import_data [109, 121, 100, 108, 108, 46, 100, 108, 108]
      (Import.Ordinal 3)).drop 16).take 2) = 3 ∧
    decU16 (((short_import_data [109, 121, 100, 108, 108, 46, 100, 108, 108]
      (Import.Name [97, 100, 100])).drop 18).take 2) = 0x00 + (0x1 <<< 2) :=
  ⟨by decide, by decide,
   (C5_short_import_encoding [109, 121, 100, 108, 108, 46, 100, 108, 108] [97, 100, 100] 3
     (by decide) (by decide) (by decide)).2.1,
   (C5_short_import_encoding [109, 121, 100, 108, 108, 46, 100, 108, 108] [97, 100, 100] 3
     (by decide) (by decide) (by decide)).2.2.2.2.2.2.2.1⟩

/-- C1: for every specification the archive begins with the 8-byte
signature `!<arch>\n` and consists of exactly 2 linker members followed by
exactly `3 + N` regular members: the import descriptor, the null import
descriptor and the null thunk data (in that order), then one short-import
member per specification entry in entry order. -/
theorem C1_archive_shape (lib : ImportLibBuilder) :
    ∃ b u1 u2,
      buildMembers lib = some b ∧
      build_library lib = some (assemble lib.name b) ∧
      b.sections = [descData lib.name, nullImpData, nullThunkData lib.name] ++
        lib.imports.map (fun p => short_import_data lib.name p.2) ∧
      b.sections.length = 3 + lib.imports.length ∧
      (assemble lib.name b).take 8 = ARCHIVE_SIG ∧
      u1 = padUnit ARCHIVE_SIG.length
        (write_header [] (firstLinkerLen b) ++ firstLinkerPayload b) ∧
      u2 = padUnit (ARCHIVE_SIG.length + u1.length)
        (write_header [] (secondLinkerLen b) ++ secondLinkerPayload b) ∧
      assemble lib.name b = ARCHIVE_SIG ++ u1 ++ u2 ++
        (regularUnitsList lib.name (ARCHIVE_SIG ++ u1 ++ u2).length b.sections).flatten ∧
      (regularUnitsList lib.name (ARCHIVE_SIG ++ u1 ++ u2).length b.sections).length =
        3 + lib.imports.length := by
  have hb := buildMembers_eq lib
  refine ⟨_, linkerUnit1 _, linkerUnit2 _, hb, ?_, buildMembers_sections hb,
    buildMembers_sections_length hb, ?_, rfl, rfl, ?_, ?_⟩
  · rw [build_library, hb]
    rfl
  · rw [assemble_eq, archiveHead_eq]
    simp [List.take_append_eq_append_take, List.take_of_length_le, ARCHIVE_SIG]
  · rw [assemble_eq, archiveHead_eq, emitRegulars]
  · rw [regularUnitsList_length]
    exact buildMembers_sections_length hb

theorem regularUnitsList_even (name : Bytes) (ds : List Bytes) :
    ∀ pos, pos % 2 = 0 →
      (∀ u ∈ regularUnitsList name pos ds, u.length % 2 = 0) ∧
      (regularUnitsList name pos ds).flatten.length % 2 = 0 := by
  induction ds with
  | nil => intro pos _; simp [regularUnitsList]
  | cons d ds ih =>
    intro pos hpos
    have hu : (padUnit pos (write_header name d.length ++ d)).length % 2 = 0 :=
      padUnit_length_even hpos _
    have hnext : (pos + (padUnit pos (write_header name d.length ++ d)).length) % 2 = 0 := by
      omega
    obtain ⟨ih1, ih2⟩ := ih _ hnext
    constructor
    · intro u hu'
      simp only [regularUnitsList, List.mem_cons] at hu'
      rcases hu' with h | h
      · exact h ▸ hu
      · exact ih1 u h
    · simp only [regularUnitsList, List.flatten_cons, List.length_append]
      omega

/-- C6: the second linker member's payload is, in native (little-endian)
order: the 4-byte member count, one 4-byte offset per regular member in
member-emission order, the 4-byte symbol count, then — after re-sorting
the symbols by owning member index (a stable sort) — one 2-byte 1-based
member sequence number per symbol, then the symbol names in that sorted
order, each NUL-terminated; and for every symbol the stored 2-byte value
equals its owning member's 1-based position in member-emission order. -/
theorem C6_second_linker (lib : ImportLibBuilder) (b : CoffArchiveBuilder)
    (hb : buildMembers lib = some b) (hm : b.sections.length < 65536) :
    secondLinkerPayload b =
      u32 b.sections.length ++ ((memberOffsets b).map u32).flatten ++
      u32 (sortByMember b.symbols).length ++
      ((sortByMember b.symbols).map (fun s => u16 s.2)).flatten ++
      ((sortByMember b.symbols).map (fun s => s.1 ++ [0])).flatten ∧
    (memberOffsets b).length = b.sections.length ∧
    (sortByMember b.symbols).Perm b.symbols ∧
    List.Pairwise (fun p q : Bytes × Nat => p.2 ≤ q.2) (sortByMember b.symbols) ∧
    (sortByMember b.symbols).length = b.symbols.length ∧
    ∀ s ∈ sortByMember b.symbols,
      decU16 (u16 s.2) = s.2 ∧ 1 ≤ s.2 ∧ s.2 ≤ b.sections.length := by
  refine ⟨rfl, memberOffsets_length b, sortByMember_perm _, ?_, sortByMember_length _, ?_⟩
  · haveI : IsTotal (Bytes × Nat) (fun p q => p.2 ≤ q.2) :=
      ⟨fun a c => Nat.le_total a.2 c.2⟩
    haveI : IsTrans (Bytes × Nat) (fun p q => p.2 ≤ q.2) :=
      ⟨fun _ _ _ h1 h2 => le_trans h1 h2⟩
    exact List.sorted_insertionSort _ _
  · intro s hs
    have hmem : s ∈ b.symbols := (sortByMember_perm b.symbols).subset hs
    have hbnd := buildMembers_bound hb s hmem
    refine ⟨?_, hbnd.1, hbnd.2⟩
    rw [decU16_u16]
    omega

/-- Witness for C6 at the spec's scenario specification. -/
theorem C6_second_linker_witness :
    buildMembers libW = some bW ∧ bW.sections.length < 65536 ∧
    ∀ s ∈ sortByMember bW.symbols,
      decU16 (u16 s.2) = s.2 ∧ 1 ≤ s.2 ∧ s.2 ≤ bW.sections.length :=
  ⟨rfl, by decide, (C6_second_linker libW bW rfl (by decide)).2.2.2.2.2⟩

/-- C7: every emitted unit of the archive — each of the two linker members
and each regular member, taken as header plus payload plus the optional pad
byte — occupies an even number of bytes, the whole archive has even total
length, and the byte appended after a payload ending at an odd buffer
position is always `0x00` (visible in `padUnit`, which appends `[0]`
exactly when the unit's bytes would end at an odd position). -/
theorem C7_even_alignment (lib : ImportLibBuilder) (b : CoffArchiveBuilder)
    (hb : buildMembers lib = some b) :
    ∃ u1 u2 units,
      build_library lib = some (ARCHIVE_SIG ++ u1 ++ u2 ++ units.flatten) ∧
      u1 = padUnit ARCHIVE_SIG.length
        (write_header [] (firstLinkerLen b) ++ firstLinkerPayload b) ∧
      u2 = padUnit (ARCHIVE_SIG.length + u1.length)
        (write_header [] (secondLinkerLen b) ++ secondLinkerPayload b) ∧
      units = regularUnitsList lib.name (ARCHIVE_SIG ++ u1 ++ u2).length b.sections ∧
      u1.length % 2 = 0 ∧
      u2.length % 2 = 0 ∧
      (∀ u ∈ units, u.length % 2 = 0) ∧
      (ARCHIVE_SIG ++ u1 ++ u2 ++ units.flatten).length % 2 = 0 := by
  have h1 : (linkerUnit1 b).length % 2 = 0 := by
    unfold linkerUnit1
    exact padUnit_length_even (by rfl) _
  have h2 : (linkerUnit2 b).length % 2 = 0 := by
    unfold linkerUnit2
    apply padUnit_length_even
    simp only [ARCHIVE_SIG, List.length_cons, List.length_nil]
    omega
  have hpos : (ARCHIVE_SIG ++ linkerUnit1 b ++ linkerUnit2 b).length % 2 = 0 := by
    simp only [List.length_append, ARCHIVE_SIG, List.length_cons, List.length_nil]
    omega
  obtain ⟨hunits, hflat⟩ := regularUnitsList_even lib.name b.sections _ hpos
  refine ⟨linkerUnit1 b, linkerUnit2 b,
    regularUnitsList lib.name (ARCHIVE_SIG ++ linkerUnit1 b ++ linkerUnit2 b).length b.sections,
    ?_, rfl, rfl, rfl, h1, h2, hunits, ?_⟩
  · rw [build_library, hb]
    show some (assemble lib.name b) = _
    rw [assemble_eq, archiveHead_eq, emitRegulars]
  · rw [List.length_append]
    omega

/-- Witness for C7 at the spec's scenario specification. -/
theorem C7_even_alignment_witness :
    buildMembers libW = some bW ∧
    ∃ u1 u2 units,
      build_library libW = some (ARCHIVE_SIG ++ u1 ++ u2 ++ units.flatten) ∧
      u1 = padUnit ARCHIVE_SIG.length
        (write_header [] (firstLinkerLen bW) ++ firstLinkerPayload bW) ∧
      u2 = padUnit (ARCHIVE_SIG.length + u1.length)
        (write_header [] (secondLinkerLen bW) ++ secondLinkerPayload bW) ∧
      units = regularUnitsList libW.name (ARCHIVE_SIG ++ u1 ++ u2).length bW.sections ∧
      u1.length % 2 = 0 ∧
      u2.length % 2 = 0 ∧
      (∀ u ∈ units, u.length % 2 = 0) ∧
      (ARCHIVE_SIG ++ u1 ++ u2 ++ units.flatten).length % 2 = 0 :=
  ⟨rfl, C7_even_alignment libW bW rfl⟩

theorem emitRegulars_cons (name : Bytes) (pos : Nat) (d : Bytes) (ds : List Bytes) :
    emitRegulars name pos (d :: ds) =
      padUnit pos (write_header name d.length ++ d) ++
        emitRegulars name (pos + (padUnit pos (write_header name d.length ++ d)).length) ds := rfl

theorem emitRegulars_append (name : Bytes) (pos : Nat) (l1 l2 : List Bytes) :
    emitRegulars name pos (l1 ++ l2) =
      emitRegulars name pos l1 ++
        emitRegulars name (pos + (emitRegulars name pos l1).length) l2 := by
  unfold emitRegulars
  rw [regularUnitsList_append, List.flatten_append]
  rfl

/-- C2: every 4-byte big-endian offset stored in the first linker member
(one per symbol, `offsets[i-1]` for the symbol's owning member index `i`)
decodes to the byte position, within the final archive buffer, at which the
archive header of the owning member starts: the buffer is exactly some
`preceding` of that length, followed by the owning member's archive header
and payload, followed by the rest.  (The size hypotheses keep every header
at its fixed 60 bytes — decimal size field within 10 characters — and every
stored offset within `u32` range; both hold for any realistic archive.) -/
theorem C2_first_linker_offsets (lib : ImportLibBuilder) (b : CoffArchiveBuilder)
    (hb : buildMembers lib = some b)
    (h1 : firstLinkerLen b < 10 ^ 10)
    (h2 : secondLinkerLen b < 10 ^ 10)
    (h3 : ∀ d ∈ b.sections, d.length < 10 ^ 10)
    (h4 : ∀ o ∈ memberOffsets b, o < 4294967296) :
    build_library lib = some (assemble lib.name b) ∧
    firstLinkerPayload b =
      u32be b.symbols.length ++
      (b.symbols.map (fun s => u32be ((memberOffsets b).getD (s.2 - 1) 0))).flatten ++
      (b.symbols.map (fun s => s.1 ++ [0])).flatten ∧
    ∀ s ∈ b.symbols,
      ∃ preceding rest,
        assemble lib.name b =
          preceding ++ write_header lib.name (b.sections.getD (s.2 - 1) []).length ++
            b.sections.getD (s.2 - 1) [] ++ rest ∧
        preceding.length = decU32be (u32be ((memberOffsets b).getD (s.2 - 1) 0)) := by
  refine ⟨?_, rfl, ?_⟩
  · rw [build_library, hb]
    rfl
  · intro s hs
    obtain ⟨hge, hle⟩ := buildMembers_bound hb s hs
    have hklt : s.2 - 1 < b.sections.length := by omega
    have hklt' : s.2 - 1 < (memberOffsets b).length := by
      rw [memberOffsets_length]
      exact hklt
    have hoval : (memberOffsets b).getD (s.2 - 1) 0 =
        offsetAfter (regularStart b) (b.sections.take (s.2 - 1)) := by
      unfold memberOffsets
      exact computeOffsets_getD _ _ _ hklt
    have homem : (memberOffsets b).getD (s.2 - 1) 0 ∈ memberOffsets b := by
      rw [List.getD_eq_getElem _ _ hklt']
      exact List.getElem_mem _
    have hlt : (memberOffsets b).getD (s.2 - 1) 0 < 4294967296 := h4 _ homem
    have hsections : b.sections = b.sections.take (s.2 - 1) ++
        b.sections.getD (s.2 - 1) [] :: b.sections.drop (s.2 - 1 + 1) := by
      conv_lhs => rw [← List.take_append_drop (s.2 - 1) b.sections]
      congr 1
      rw [List.getD_eq_getElem _ _ hklt]
      exact List.drop_eq_getElem_cons hklt
    have htakelen : ∀ d ∈ b.sections.take (s.2 - 1), d.length < 10 ^ 10 :=
      fun d hd => h3 d (List.take_subset _ _ hd)
    have hheadlen : (archiveHead b).length = regularStart b := archiveHead_length b h1 h2
    have hsplit : assemble lib.name b =
        (archiveHead b ++ emitRegulars lib.name (archiveHead b).length
          (b.sections.take (s.2 - 1))) ++
        emitRegulars lib.name
          ((archiveHead b).length +
            (emitRegulars lib.name (archiveHead b).length (b.sections.take (s.2 - 1))).length)
          (b.sections.getD (s.2 - 1) [] :: b.sections.drop (s.2 - 1 + 1)) := by
      rw [assemble_eq]
      conv_lhs => rw [hsections]
      rw [emitRegulars_append, List.append_assoc]
    have hpre : (archiveHead b ++ emitRegulars lib.name (archiveHead b).length
        (b.sections.take (s.2 - 1))).length =
        (memberOffsets b).getD (s.2 - 1) 0 := by
      rw [List.length_append, hoval, ← hheadlen]
      exact emitRegulars_length lib.name _ htakelen _
    obtain ⟨t, ht⟩ : ∃ t, padUnit ((archiveHead b).length +
        (emitRegulars lib.name (archiveHead b).length (b.sections.take (s.2 - 1))).length)
        (write_header lib.name (b.sections.getD (s.2 - 1) []).length ++
          b.sections.getD (s.2 - 1) []) =
        (write_header lib.name (b.sections.getD (s.2 - 1) []).length ++
          b.sections.getD (s.2 - 1) []) ++ t := by
      unfold padUnit
      split
      · exact ⟨[0], rfl⟩
      · exact ⟨[], by simp⟩
    refine ⟨archiveHead b ++ emitRegulars lib.name (archiveHead b).length
        (b.sections.take (s.2 - 1)),
      t ++ (regularUnitsList lib.name
        (((archiveHead b).length +
            (emitRegulars lib.name (archiveHead b).length (b.sections.take (s.2 - 1))).length) +
          (padUnit ((archiveHead b).length +
            (emitRegulars lib.name (archiveHead b).length (b.sections.take (s.2 - 1))).length)
            (write_header lib.name (b.sections.getD (s.2 - 1) []).length ++
              b.sections.getD (s.2 - 1) [])).length)
        (b.sections.drop (s.2 - 1 + 1))).flatten, ?_, ?_⟩
    · rw [hsplit, emitRegulars_cons, ht]
      simp [List.append_assoc, emitRegulars]
    · rw [hpre, decU32be_u32be_of_lt hlt]
  
/-- Witness for C2 at the spec's scenario specification. -/
theorem C2_first_linker_offsets_witness :
    buildMembers libW = some bW ∧
    firstLinkerLen bW < 10 ^ 10 ∧
    secondLinkerLen bW < 10 ^ 10 ∧
    (∀ d ∈ bW.sections, d.length < 10 ^ 10) ∧
    (∀ o ∈ memberOffsets bW, o < 4294967296) ∧
    ∀ s ∈ bW.symbols,
      ∃ preceding rest,
        assemble libW.name bW =
          preceding ++ write_header libW.name (bW.sections.getD (s.2 - 1) []).length ++
            bW.sections.getD (s.2 - 1) [] ++ rest ∧
        preceding.length = decU32be (u32be ((memberOffsets bW).getD (s.2 - 1) 0)) :=
  ⟨rfl, by decide, by decide, by decide, by decide,
   (C2_first_linker_offsets libW bW rfl (by decide) (by decide) (by decide) (by decide)).2.2⟩

theorem imp_ne_self (X : Bytes) : impBytes ++ X ≠ X := by
  intro h
  have hlen := congrArg List.length h
  simp [impBytes] at hlen
  omega

theorem foldl_add_short_import_lookup_ne (L : List (Bytes × Import))
    (X : Bytes) (hX : ∀ p ∈ L, p.1 ≠ X ∧ impBytes ++ p.1 ≠ X) :
    ∀ b0 : CoffArchiveBuilder,
      lookupSym (L.foldl (fun b p => b.add_short_import p.1 p.2) b0).symbols X =
        lookupSym b0.symbols X := by
  induction L with
  | nil => intro b0; rfl
  | cons y L ih =>
    intro b0
    have hy := hX y (List.mem_cons_self _ _)
    have hL : ∀ p ∈ L, p.1 ≠ X ∧ impBytes ++ p.1 ≠ X :=
      fun p hp => hX p (List.mem_cons_of_mem _ hp)
    rw [List.foldl_cons, ih hL]
    show lookupSym (indexInsert (indexInsert b0.symbols (impBytes ++ y.1) _) y.1 _) X = _
    rw [lookupSym_indexInsert_ne _ _ _ (Ne.symm hy.1),
      lookupSym_indexInsert_ne _ _ _ (Ne.symm hy.2)]

/-- C8 (amended): for a specification entry with exposed name `X` at
position `k`, `add_short_import` registers exactly the two names
`__imp_X` and `X`, both mapped to that entry's member (the `(k+4)`-th
member: 3 descriptors, then one short import per earlier entry), and the
member itself is that entry's short-import record; in the FINAL symbol
index both names still resolve to that same member provided no later
entry's exposed name `Y` collides with the pair (`Y = X`, `Y = __imp_X`,
or `__imp_Y = X`) — without the proviso a later entry's insertion
overwrites one of the two bindings (see the counterexample). -/
theorem C8_amended_pair_binding (lib : ImportLibBuilder) (b : CoffArchiveBuilder)
    (hb : buildMembers lib = some b)
    (k : Nat) (X : Bytes) (imp : Import)
    (hk : lib.imports[k]? = some (X, imp))
    (hlater : ∀ j, k < j → ∀ Y i2, lib.imports[j]? = some (Y, i2) →
      Y ≠ X ∧ Y ≠ impBytes ++ X ∧ impBytes ++ Y ≠ X) :
    lookupSym b.symbols X = some (4 + k) ∧
    lookupSym b.symbols (impBytes ++ X) = some (4 + k) ∧
    b.sections[3 + k]? = some (short_import_data lib.name imp) := by
  have hsection : b.sections[3 + k]? = some (short_import_data lib.name imp) := by
    rw [buildMembers_sections hb]
    rw [List.getElem?_append_right (by simp)]
    have h3 : ([descData lib.name, nullImpData, nullThunkData lib.name] : List Bytes).length = 3 :=
      rfl
    rw [h3, Nat.add_sub_cancel_left, List.getElem?_map, hk]
    rfl
  have hklen : k < lib.imports.length := by
    by_contra hcon
    rw [List.getElem?_eq_none (by omega)] at hk
    cases hk
  have hentry : lib.imports[k] = (X, imp) := by
    have := List.getElem?_eq_getElem hklen
    rw [hk] at this
    exact (Option.some_injective _ this.symm)
  have himpsplit : lib.imports = lib.imports.take k ++
      (X, imp) :: lib.imports.drop (k + 1) := by
    conv_lhs => rw [← List.take_append_drop k lib.imports]
    congr 1
    rw [← hentry]
    exact List.drop_eq_getElem_cons hklen
  rw [buildMembers_eq] at hb
  cases hb
  set F := fun (b : CoffArchiveBuilder) (p : Bytes × Import) => b.add_short_import p.1 p.2
    with hF
  set bk := (lib.imports.take k).foldl F (initialBuilder lib.name) with hbk
  have hsecsk : bk.sections.length = 3 + k := by
    rw [hbk, foldl_add_short_import_sections]
    simp only [List.length_append, List.length_map, List.length_take, initialBuilder,
      List.length_cons, List.length_nil]
    omega
  -- drop-side collision freedom, from the membership characterisation
  have hdropX : ∀ p ∈ lib.imports.drop (k + 1), p.1 ≠ X ∧ impBytes ++ p.1 ≠ X := by
    intro p hp
    obtain ⟨i, hi, hig⟩ := List.mem_iff_getElem.mp hp
    have hj : lib.imports[k + 1 + i]? = some p := by
      rw [← List.getElem?_drop]
      rw [List.getElem?_eq_getElem hi, hig]
    have := hlater (k + 1 + i) (by omega) p.1 p.2 (by rw [← hj])
    exact ⟨this.1, this.2.2⟩
  have hdropImp : ∀ p ∈ lib.imports.drop (k + 1),
      p.1 ≠ impBytes ++ X ∧ impBytes ++ p.1 ≠ impBytes ++ X := by
    intro p hp
    obtain ⟨i, hi, hig⟩ := List.mem_iff_getElem.mp hp
    have hj : lib.imports[k + 1 + i]? = some p := by
      rw [← List.getElem?_drop]
      rw [List.getElem?_eq_getElem hi, hig]
    have := hlater (k + 1 + i) (by omega) p.1 p.2 (by rw [← hj])
    exact ⟨this.2.1, fun hc => this.1 (List.append_cancel_left hc)⟩
  -- unfold the fold at position k
  have hfold : lib.imports.foldl F (initialBuilder lib.name) =
      (lib.imports.drop (k + 1)).foldl F (F bk (X, imp)) := by
    conv_lhs => rw [himpsplit]
    rw [List.foldl_append, List.foldl_cons]
  have hFY : (F bk (X, imp)).symbols =
      indexInsert (indexInsert bk.symbols (impBytes ++ X) (bk.sections.length + 1)) X
        (bk.sections.length + 1) := by
    simp [hF, CoffArchiveBuilder.add_short_import]
  refine ⟨?_, ?_, hsection⟩
  · rw [hfold, foldl_add_short_import_lookup_ne _ _ hdropX, hFY,
      lookupSym_indexInsert_self, hsecsk]
    congr 1
    omega
  · rw [hfold, foldl_add_short_import_lookup_ne _ _ hdropImp, hFY,
      lookupSym_indexInsert_ne _ _ _ (imp_ne_self X),
      lookupSym_indexInsert_self, hsecsk]
    congr 1
    omega

/-- Witness for the amended C8 at the spec's scenario specification, entry
1 (exposed name `"add"`): both `"add"` and `"__imp_add"` resolve to member
5, which is that entry's short-import record. -/
theorem C8_amended_pair_binding_witness :
    buildMembers libW = some bW ∧
    lookupSym bW.symbols [97, 100, 100] = some 5 ∧
    lookupSym bW.symbols (impBytes ++ [97, 100, 100]) = some 5 ∧
    bW.sections[4]? = some (short_import_data libW.name (Import.Name [97, 100, 100])) := by
  have hlater : ∀ j, 1 < j → ∀ Y i2, libW.imports[j]? = some (Y, i2) →
      Y ≠ [97, 100, 100] ∧ Y ≠ impBytes ++ [97, 100, 100] ∧
      impBytes ++ Y ≠ [97, 100, 100] := by
    intro j hj Y i2 hY
    have hjlt : j < 3 := by
      by_contra hcon
      rw [List.getElem?_eq_none (by simp [libW]; omega)] at hY
      cases hY
    interval_cases j
    simp only [libW, List.getElem?_cons_succ, List.getElem?_cons_zero,
      Option.some_inj] at hY
    obtain ⟨hY1, hY2⟩ := Prod.mk.injEq .. ▸ hY.symm
    subst hY1
    refine ⟨by decide, by decide, by decide⟩
  have h := C8_amended_pair_binding libW bW rfl 1 [97, 100, 100]
    (Import.Name [97, 100, 100]) (by decide) hlater
  exact ⟨rfl, h.1, h.2.1, h.2.2⟩

end GenDylib
